import Mathlib

/-!
Verification of the `avatarlib` package (256avatars): a bit-packed 2D boolean
pixel grid with random and mirrored fill algorithms, keyed wrapping, and a
filesystem path helper.

Embedding conventions:
* Go `int` is modelled as `Int`.  Overflow is out of scope: every arithmetic
  quantity in the claims is bounded by the length of an in-memory buffer.
* A Go `[]byte` is a `List Nat`, each entry a byte value; byte operations
  (`|`, `&`, `&^`) are modelled with `Nat` bitwise operations.  `x &^ m` on a
  byte is `x &&& (255 ^^^ m)`.
* Go slice indexing panics when out of range; the embedding is total and
  returns `none` on that branch (`Option` / the `indexPanic` error).
* `crypto/rand.Read` is modelled by an explicit entropy byte list that the
  generators consume from the front; an empty list where bytes are needed is
  the `RandomSourceError` path.
-/

/-- Go structure `Avatar` from `avatarlib/main.go`: dimensions and bit-packed pixel data,
one bit per pixel, row-major, LSB-first inside each byte. -/
structure Avatar where
  Width : Int
  Height : Int
  Pixels : List Nat
  deriving DecidableEq

/-- Method `(a *Avatar) GetPixel(x, y int) bool`.  Out-of-bounds coordinates return
`false`; in bounds, the bit at row-major index `y*Width+x` is read
(bit `idx % 8` of byte `idx / 8`, via `Pixels[byteIdx] & (1 << bitIdx)`).
A buffer access out of range is a Go panic, embedded as `none`. -/
def GetPixel (a : Avatar) (x y : Int) : Option Bool :=
  if x < 0 ∨ a.Width ≤ x ∨ y < 0 ∨ a.Height ≤ y then
    some false
  else
    match a.Pixels[(y * a.Width + x).toNat / 8]? with
    | some b => some (decide (b &&& (1 <<< ((y * a.Width + x).toNat % 8)) ≠ 0))
    | none => none

/-- Method `(a *Avatar) SetPixel(x, y int, val bool)`.  Out-of-bounds coordinates are
ignored; in bounds, bit `idx % 8` of byte `idx / 8` is set (`|=`) or cleared
(`&^=`, i.e. and-not, on a byte: `&&& (255 ^^^ mask)`).  A buffer access out
of range is a Go panic, embedded as `none`. -/
def SetPixel (a : Avatar) (x y : Int) (val : Bool) : Option Avatar :=
  if x < 0 ∨ a.Width ≤ x ∨ y < 0 ∨ a.Height ≤ y then
    some a
  else
    match a.Pixels[(y * a.Width + x).toNat / 8]? with
    | some b =>
      some { a with
        Pixels := (a.Pixels.set ((y * a.Width + x).toNat / 8)
          (if val then b ||| (1 <<< ((y * a.Width + x).toNat % 8))
           else b &&& (255 ^^^ (1 <<< ((y * a.Width + x).toNat % 8))))) }
    | none => none

/-- The buffer length both generators allocate: `(width*height + 7) / 8`
(Go integer division; `ceil(width*height/8)` for positive dimensions). -/
def bytesNeeded (width height : Int) : Nat :=
  ((width * height + 7) / 8).toNat

/-- Bit `i % 8` of byte `i / 8` of a bit-packed buffer (the bit at row-major
pixel index `i`); bytes past the end read as `0`. -/
def bufBit (pixels : List Nat) (i : Nat) : Bool :=
  Nat.testBit (pixels.getD (i / 8) 0) (i % 8)

/-- Failure modes of the generators: `invalid dimensions`, a failed
`rand.Read`, the run-time panic of `make` on a negative length, and the
(unreachable) slice-index panic of the embedding. -/
inductive GenErr where
  | invalidDimensions
  | randomSourceError
  | makePanic
  | indexPanic
  deriving DecidableEq

/-- Two's-complement wrap of an integer into `[-2^63, 2^63)`: the result of
Go `int` arithmetic on a 64-bit platform. -/
def wrap64 (n : Int) : Int := (n + 2 ^ 63) % 2 ^ 64 - 2 ^ 63

/-- The byte length `GenerateAvatar` computes with Go `int` arithmetic:
`bits := width * height` (wrapping multiplication), then `(bits + 7) / 8`
(wrapping addition, truncating division). -/
def goBytesLen (width height : Int) : Int :=
  (wrap64 (wrap64 (width * height) + 7)).tdiv 8

/-- Function `GenerateAvatar(width, height int)`: validate dimensions, compute
`bytesLen := (width*height + 7) / 8` in wrapping Go `int` arithmetic,
allocate that many bytes (`make` panics when the wrapped length is
negative), and fill them all from the entropy source with one `rand.Read`
call.  Returns the avatar and the remaining entropy. -/
def GenerateAvatar (width height : Int) (ent : List Nat) :
    Except GenErr (Avatar × List Nat) :=
  if width ≤ 0 ∨ height ≤ 0 then
    .error .invalidDimensions
  else if goBytesLen width height < 0 then .error .makePanic
  else if ent.length < (goBytesLen width height).toNat then
    .error .randomSourceError
  else
    .ok (⟨width, height, ent.take (goBytesLen width height).toNat⟩,
      ent.drop (goBytesLen width height).toNat)

/-- One iteration of the `GenerateSymmetric` inner loop body after the random
byte `b` has been read: `val := (b & 1) == 1`, `SetPixel(x, y, val)`, and if
`mirrorX := width-1-x` differs from `x`, `SetPixel(mirrorX, y, val)`. -/
def symStep (width : Int) (a : Avatar) (y x : Int) (b : Nat) : Option Avatar :=
  match SetPixel a x y ((b &&& 1) == 1) with
  | none => none
  | some a1 =>
    if width - 1 - x ≠ x then SetPixel a1 (width - 1 - x) y ((b &&& 1) == 1)
    else some a1

/-- The double loop of `GenerateSymmetric`, iterating over `(y, x)` pairs in
order; each iteration reads one fresh byte from the entropy source (a failed
read is `randomSourceError`) and runs `symStep`. -/
def symLoop (width : Int) (pairs : List (Int × Int)) (a : Avatar)
    (ent : List Nat) : Except GenErr (Avatar × List Nat) :=
  match pairs with
  | [] => .ok (a, ent)
  | (y, x) :: rest =>
    match ent with
    | [] => .error .randomSourceError
    | b :: ent2 =>
      match symStep width a y x b with
      | none => .error .indexPanic
      | some a2 => symLoop width rest a2 ent2

/-- The `(y, x)` iteration order of `GenerateSymmetric`:
`for y := 0; y < height; y++ { for x := 0; x < halfWidth; x++ { ... } }`. -/
def symPairs (height halfWidth : Int) : List (Int × Int) :=
  (List.range height.toNat).flatMap fun y =>
    (List.range halfWidth.toNat).map fun x => (Int.ofNat y, Int.ofNat x)

/-- Function `GenerateSymmetric(width, height int)`: validate dimensions, allocate a
zeroed `(width*height+7)/8`-byte buffer, set `halfWidth := (width+1)/2`, and
for each row fill the left half with fresh random bits, mirroring each to
column `width-1-x` when that differs from `x`. -/
def GenerateSymmetric (width height : Int) (ent : List Nat) :
    Except GenErr (Avatar × List Nat) :=
  if width ≤ 0 ∨ height ≤ 0 then
    .error .invalidDimensions
  else
    symLoop width (symPairs height ((width + 1) / 2))
      ⟨width, height, List.replicate (bytesNeeded width height) 0⟩ ent

/-- Structure `KeyAvatar`: a string key paired with an avatar. -/
structure KeyAvatar where
  Key : String
  Avatar : Avatar
  deriving DecidableEq

/-- Function `GenerateKeyAvatar(key string, width, height int, method string)`:
dispatch on `method` with a switch — `case "symmetric"` uses the mirrored
fill; `case "none", ""` falls through to `default`, which uses the random
fill — then propagate any error, otherwise wrap the avatar with the key. -/
def GenerateKeyAvatar (key : String) (width height : Int) (method : String)
    (ent : List Nat) : Except GenErr (KeyAvatar × List Nat) :=
  match (if method = "symmetric" then GenerateSymmetric width height ent
         else if method = "none" ∨ method = "" then
           GenerateAvatar width height ent
         else GenerateAvatar width height ent) with
  | .error e => .error e
  | .ok (a, ent2) => .ok (⟨key, a⟩, ent2)

/-!
Embedding of Go's `path/filepath` on Unix (`Separator = '/'`), as used by
`GetAvatarPath`.  Strings are modelled as `List Char`.  `filepath.Clean` is
modelled component-wise: split on `'/'`, then drop empty and `"."`
components, resolve `".."` against the output stack (popping a previous
component, being dropped at the root of a rooted path, or accumulating at
the front of a relative path), and rejoin.
-/

/-- Split a character list on `'/'`, keeping empty components. -/
def splitSlash : List Char → List (List Char)
  | [] => [[]]
  | c :: rest =>
    match splitSlash rest with
    | [] => []
    | g :: gs => if c = '/' then [] :: g :: gs else (c :: g) :: gs

/-- The component-processing loop of `filepath.Clean`: `acc` is the output
stack (most recent component first). -/
def cleanLoop (rooted : Bool) : List (List Char) → List (List Char) → List (List Char)
  | [], acc => acc.reverse
  | c :: rest, acc =>
    if c = [] ∨ c = ['.'] then cleanLoop rooted rest acc
    else if c = ['.', '.'] then
      match acc with
      | [] => if rooted then cleanLoop rooted rest [] else cleanLoop rooted rest [['.', '.']]
      | top :: acc2 =>
        if top = ['.', '.'] then cleanLoop rooted rest (['.', '.'] :: top :: acc2)
        else cleanLoop rooted rest acc2
    else cleanLoop rooted rest (c :: acc)

/-- Join components with `'/'`. -/
def joinSlash (comps : List (List Char)) : List Char :=
  List.intercalate ['/'] comps

/-- Model of `filepath.Clean` on Unix. -/
def goClean (cs : List Char) : List Char :=
  if cs = [] then ['.']
  else if cs.head? = some '/' then
    '/' :: joinSlash (cleanLoop true (splitSlash cs) [])
  else if joinSlash (cleanLoop false (splitSlash cs) []) = [] then ['.']
  else joinSlash (cleanLoop false (splitSlash cs) [])

/-- Model of `filepath.Join(a, b)` on Unix: the first non-empty element onward is
joined with `'/'` and cleaned; all-empty input yields the empty path. -/
def goJoin (a b : List Char) : List Char :=
  if a ≠ [] then goClean (a ++ '/' :: b)
  else if b ≠ [] then goClean b
  else []

/-- Function `GetAvatarPath(folder, key string) string`:
`filepath.Join(folder, key+".png")`. -/
def GetAvatarPath (folder key : List Char) : List Char :=
  goJoin folder (key ++ ['.', 'p', 'n', 'g'])

/-!
### Arithmetic and bit-level helper lemmas
-/

/-- An in-bounds pixel's byte index lies inside the allocated buffer. -/
theorem byteIdx_lt {w h x y : Int} (hx0 : 0 ≤ x) (hxw : x < w) (hy0 : 0 ≤ y)
    (hyh : y < h) : (y * w + x).toNat / 8 < bytesNeeded w h := by
  have hw : 0 < w := lt_of_le_of_lt hx0 hxw
  have h1 : 0 ≤ y * w + x := add_nonneg (mul_nonneg hy0 hw.le) hx0
  have h2 : y * w + x < w * h := by nlinarith
  unfold bytesNeeded
  generalize hn : w * h = n at h2 ⊢
  generalize hi : y * w + x = i at h1 h2 ⊢
  omega

/-- The mask test `b & (1 << k) != 0` used by `GetPixel` reads bit `k`. -/
theorem decide_land_shift (b k : Nat) :
    decide (b &&& (1 <<< k) ≠ 0) = b.testBit k := by
  rw [Nat.one_shiftLeft]
  rcases hb : b.testBit k with _ | _
  · have hz : b &&& 2 ^ k = 0 := by
      apply Nat.eq_of_testBit_eq
      intro i
      rw [Nat.testBit_and, Nat.testBit_two_pow, Nat.zero_testBit]
      rcases eq_or_ne k i with rfl | hki
      · simp [hb]
      · simp [hki]
    simp [hz]
  · have ht : (b &&& 2 ^ k).testBit k = true := by
      rw [Nat.testBit_and, hb, Nat.testBit_two_pow_self]
      rfl
    have hne : b &&& 2 ^ k ≠ 0 := by
      intro hc
      rw [hc] at ht
      simp at ht
    simp [hne]

/-- Bits `0`–`7` of the byte mask `0xFF` are all set. -/
theorem testBit_255 {j : Nat} (hj : j < 8) : Nat.testBit 255 j = true := by
  interval_cases j <;> decide

/-- Setting (`|=`) or clearing (`&^=`) bit `k` of a byte writes that bit. -/
theorem testBit_setByte_same (b k : Nat) (v : Bool) (hk : k < 8) :
    (if v then b ||| (1 <<< k) else b &&& (255 ^^^ (1 <<< k))).testBit k = v := by
  rw [Nat.one_shiftLeft]
  cases v
  · simp [Nat.testBit_and, Nat.testBit_xor, Nat.testBit_two_pow_self,
      testBit_255 hk]
  · simp [Nat.testBit_or, Nat.testBit_two_pow_self]

/-- Setting or clearing bit `k` of a byte leaves every other in-byte bit
unchanged. -/
theorem testBit_setByte_other (b k j : Nat) (v : Bool) (hj : j < 8) (hjk : j ≠ k) :
    (if v then b ||| (1 <<< k) else b &&& (255 ^^^ (1 <<< k))).testBit j =
      b.testBit j := by
  rw [Nat.one_shiftLeft]
  cases v
  · simp [Nat.testBit_and, Nat.testBit_xor, testBit_255 hj,
      Nat.testBit_two_pow_of_ne (Ne.symm hjk)]
  · simp [Nat.testBit_or, Nat.testBit_two_pow_of_ne (Ne.symm hjk)]

/-- Row-major indexing is injective on in-bounds coordinates. -/
theorem rowmajor_inj {W xr yr xw yw : Int} (hxr0 : 0 ≤ xr) (hxrW : xr < W)
    (hxw0 : 0 ≤ xw) (hxwW : xw < W) (heq : yr * W + xr = yw * W + xw) :
    xr = xw ∧ yr = yw := by
  have hW : 0 < W := lt_of_le_of_lt hxr0 hxrW
  have hy : yr = yw := by
    by_contra hne
    rcases lt_or_gt_of_ne hne with hlt | hgt
    · nlinarith [mul_le_mul_of_nonneg_right (by omega : yr + 1 ≤ yw) hW.le]
    · nlinarith [mul_le_mul_of_nonneg_right (by omega : yw + 1 ≤ yr) hW.le]
  subst hy
  exact ⟨by linarith, rfl⟩

/-!
### Basic accessor lemmas
-/

/-- Out-of-bounds reads return `false`. -/
theorem GetPixel_oob {a : Avatar} {x y : Int}
    (h : x < 0 ∨ a.Width ≤ x ∨ y < 0 ∨ a.Height ≤ y) :
    GetPixel a x y = some false := by
  unfold GetPixel
  rw [if_pos h]

/-- Out-of-bounds writes are no-ops. -/
theorem SetPixel_oob {a : Avatar} {x y : Int} (v : Bool)
    (h : x < 0 ∨ a.Width ≤ x ∨ y < 0 ∨ a.Height ≤ y) :
    SetPixel a x y v = some a := by
  unfold SetPixel
  rw [if_pos h]

/-- A successful `SetPixel` preserves the dimensions and buffer length. -/
theorem SetPixel_dims {a a2 : Avatar} {x y : Int} {v : Bool}
    (h : SetPixel a x y v = some a2) :
    a2.Width = a.Width ∧ a2.Height = a.Height ∧
      a2.Pixels.length = a.Pixels.length := by
  unfold SetPixel at h
  split at h
  · obtain rfl := Option.some.inj h
    exact ⟨rfl, rfl, rfl⟩
  · split at h
    · obtain rfl := Option.some.inj h
      exact ⟨rfl, rfl, by simp⟩
    · exact Option.noConfusion h

/-- In-bounds reads with the byte index inside the buffer read `bufBit`. -/
theorem GetPixel_inb {a : Avatar} {x y : Int}
    (h : ¬(x < 0 ∨ a.Width ≤ x ∨ y < 0 ∨ a.Height ≤ y))
    (hlt : (y * a.Width + x).toNat / 8 < a.Pixels.length) :
    GetPixel a x y = some (bufBit a.Pixels (y * a.Width + x).toNat) := by
  unfold GetPixel bufBit
  rw [if_neg h, List.getElem?_eq_getElem hlt]
  dsimp only
  congr 1
  rw [List.getD_eq_getElem?_getD, List.getElem?_eq_getElem hlt]
  exact decide_land_shift ..

/-- In-bounds writes with the byte index inside the buffer update exactly the
addressed byte. -/
theorem SetPixel_inb {a : Avatar} {x y : Int} {v : Bool}
    (h : ¬(x < 0 ∨ a.Width ≤ x ∨ y < 0 ∨ a.Height ≤ y))
    (hlt : (y * a.Width + x).toNat / 8 < a.Pixels.length) :
    SetPixel a x y v = some { a with
      Pixels := (a.Pixels.set ((y * a.Width + x).toNat / 8)
        (if v then
          a.Pixels.getD ((y * a.Width + x).toNat / 8) 0 |||
            (1 <<< ((y * a.Width + x).toNat % 8))
         else
          a.Pixels.getD ((y * a.Width + x).toNat / 8) 0 &&&
            (255 ^^^ (1 <<< ((y * a.Width + x).toNat % 8))))) } := by
  unfold SetPixel
  rw [if_neg h, List.getElem?_eq_getElem hlt]
  dsimp only
  simp only [List.getD_eq_getElem?_getD, List.getElem?_eq_getElem hlt,
    Option.getD_some]

/-- Every read of the freshly allocated all-zero avatar returns `false`. -/
theorem GetPixel_zeroAvatar (w h x y : Int) :
    GetPixel ⟨w, h, List.replicate (bytesNeeded w h) 0⟩ x y = some false := by
  unfold GetPixel
  split
  · rfl
  · next hc =>
    have hc2 : ¬(x < 0 ∨ w ≤ x ∨ y < 0 ∨ h ≤ y) := hc
    have hlt : (y * w + x).toNat / 8 < bytesNeeded w h :=
      byteIdx_lt (by omega) (by omega) (by omega) (by omega)
    have hrep :
        (List.replicate (bytesNeeded w h) 0)[(y * w + x).toNat / 8]? =
          some 0 := List.getElem?_replicate_of_lt hlt
    rw [show ((⟨w, h, List.replicate (bytesNeeded w h) 0⟩ : Avatar).Pixels) =
      List.replicate (bytesNeeded w h) 0 from rfl]
    rw [hrep]
    simp

/-- Comparing nonnegative integers through `toNat` preserves distinctness. -/
theorem toNat_ne {i j : Int} (h1 : 0 ≤ i) (h2 : 0 ≤ j) (h : i ≠ j) :
    i.toNat ≠ j.toNat := by omega

/-- A successful in-bounds `SetPixel` means the byte index was inside the
buffer. -/
theorem SetPixel_some_lt {a a2 : Avatar} {x y : Int} {v : Bool}
    (h : SetPixel a x y v = some a2)
    (hc : ¬(x < 0 ∨ a.Width ≤ x ∨ y < 0 ∨ a.Height ≤ y)) :
    (y * a.Width + x).toNat / 8 < a.Pixels.length := by
  unfold SetPixel at h
  rw [if_neg hc] at h
  rcases hb : a.Pixels[(y * a.Width + x).toNat / 8]? with _ | b
  · rw [hb] at h
    exact Option.noConfusion h
  · exact (List.getElem?_eq_some_iff.mp hb).1

/-- Explicit description of a successful in-bounds `SetPixel`. -/
theorem SetPixel_inb_spec {a a2 : Avatar} {x y : Int} {v : Bool}
    (h : SetPixel a x y v = some a2)
    (hc : ¬(x < 0 ∨ a.Width ≤ x ∨ y < 0 ∨ a.Height ≤ y)) :
    a2.Width = a.Width ∧ a2.Height = a.Height ∧
      a2.Pixels = (a.Pixels.set ((y * a.Width + x).toNat / 8)
        (if v then
          a.Pixels.getD ((y * a.Width + x).toNat / 8) 0 |||
            (1 <<< ((y * a.Width + x).toNat % 8))
         else
          a.Pixels.getD ((y * a.Width + x).toNat / 8) 0 &&&
            (255 ^^^ (1 <<< ((y * a.Width + x).toNat % 8))))) := by
  have hlt := SetPixel_some_lt h hc
  rw [SetPixel_inb hc hlt] at h
  obtain rfl := Option.some.inj h
  exact ⟨rfl, rfl, rfl⟩

/-- Reading back the pixel just written returns the written value. -/
theorem GetPixel_SetPixel_same {a a2 : Avatar} {x y : Int} {v : Bool}
    (h : SetPixel a x y v = some a2)
    (hx0 : 0 ≤ x) (hxw : x < a.Width) (hy0 : 0 ≤ y) (hyh : y < a.Height) :
    GetPixel a2 x y = some v := by
  have hc : ¬(x < 0 ∨ a.Width ≤ x ∨ y < 0 ∨ a.Height ≤ y) := by omega
  have hlt := SetPixel_some_lt h hc
  obtain ⟨hW, hH, hpix⟩ := SetPixel_inb_spec h hc
  have hc2 : ¬(x < 0 ∨ a2.Width ≤ x ∨ y < 0 ∨ a2.Height ≤ y) := by
    rw [hW, hH]; exact hc
  have hlt2 : (y * a2.Width + x).toNat / 8 < a2.Pixels.length := by
    rw [hW, hpix, List.length_set]; exact hlt
  rw [GetPixel_inb hc2 hlt2]
  congr 1
  unfold bufBit
  rw [hW, hpix, List.getD_eq_getElem?_getD, List.getElem?_set_self hlt,
    Option.getD_some]
  exact testBit_setByte_same _ _ v (Nat.mod_lt _ (by norm_num))

/-- Writing one pixel does not change the value read at any other pixel. -/
theorem GetPixel_SetPixel_other {a a2 : Avatar} {xw yw xr yr : Int} {v : Bool}
    (h : SetPixel a xw yw v = some a2) (hne : xr ≠ xw ∨ yr ≠ yw) :
    GetPixel a2 xr yr = GetPixel a xr yr := by
  by_cases hcw : xw < 0 ∨ a.Width ≤ xw ∨ yw < 0 ∨ a.Height ≤ yw
  · rw [SetPixel_oob v hcw] at h
    obtain rfl := Option.some.inj h
    rfl
  · have hlt := SetPixel_some_lt h hcw
    obtain ⟨hW, hH, hpix⟩ := SetPixel_inb_spec h hcw
    unfold GetPixel
    rw [hW, hH, hpix]
    by_cases hcr : xr < 0 ∨ a.Width ≤ xr ∨ yr < 0 ∨ a.Height ≤ yr
    · rw [if_pos hcr, if_pos hcr]
    · rw [if_neg hcr, if_neg hcr]
      have hneq : yr * a.Width + xr ≠ yw * a.Width + xw := by
        intro hEq
        obtain ⟨hx, hy⟩ := rowmajor_inj (by omega) (by omega) (by omega)
          (by omega) hEq
        rcases hne with h1 | h1
        · exact h1 hx
        · exact h1 hy
      have hr0 : 0 ≤ yr * a.Width + xr :=
        add_nonneg (mul_nonneg (by omega) (by omega)) (by omega)
      have hw0 : 0 ≤ yw * a.Width + xw :=
        add_nonneg (mul_nonneg (by omega) (by omega)) (by omega)
      have hneqN := toNat_ne hr0 hw0 hneq
      by_cases hJ : (yr * a.Width + xr).toNat / 8 = (yw * a.Width + xw).toNat / 8
      · rw [hJ, List.getElem?_set_self hlt, List.getElem?_eq_getElem hlt]
        dsimp only
        congr 1
        rw [decide_land_shift, decide_land_shift,
          List.getD_eq_getElem?_getD, List.getElem?_eq_getElem hlt,
          Option.getD_some]
        have hkk : (yr * a.Width + xr).toNat % 8 ≠ (yw * a.Width + xw).toNat % 8 := by
          generalize hA : (yr * a.Width + xr).toNat = A at *
          generalize hB : (yw * a.Width + xw).toNat = B at *
          omega
        exact testBit_setByte_other _ _ _ v (Nat.mod_lt _ (by norm_num)) hkk
      · rw [List.getElem?_set_ne (fun hEq => hJ hEq.symm)]

/-!
### Lemmas about the mirrored-fill loop
-/

/-- A successful `symStep` preserves dimensions and buffer length. -/
theorem symStep_dims {w : Int} {a a2 : Avatar} {y x : Int} {b : Nat}
    (h : symStep w a y x b = some a2) :
    a2.Width = a.Width ∧ a2.Height = a.Height ∧
      a2.Pixels.length = a.Pixels.length := by
  unfold symStep at h
  split at h
  · exact Option.noConfusion h
  · next a1 h1 =>
    obtain ⟨hW1, hH1, hL1⟩ := SetPixel_dims h1
    split at h
    · obtain ⟨hW2, hH2, hL2⟩ := SetPixel_dims h
      exact ⟨hW2.trans hW1, hH2.trans hH1, hL2.trans hL1⟩
    · obtain rfl := Option.some.inj h
      exact ⟨hW1, hH1, hL1⟩

/-- A successful `symLoop` preserves dimensions and buffer length. -/
theorem symLoop_dims {w : Int} {pairs : List (Int × Int)} {a : Avatar}
    {ent : List Nat} {a2 : Avatar} {ent2 : List Nat}
    (h : symLoop w pairs a ent = .ok (a2, ent2)) :
    a2.Width = a.Width ∧ a2.Height = a.Height ∧
      a2.Pixels.length = a.Pixels.length := by
  induction pairs generalizing a ent with
  | nil =>
    simp only [symLoop, Except.ok.injEq, Prod.mk.injEq] at h
    obtain ⟨rfl, rfl⟩ := h
    exact ⟨rfl, rfl, rfl⟩
  | cons p rest ih =>
    obtain ⟨py, px⟩ := p
    unfold symLoop at h
    rcases ent with _ | ⟨b, ent3⟩
    · exact Except.noConfusion h
    · dsimp only at h
      rcases hs : symStep w a py px b with _ | a3
      · rw [hs] at h
        exact Except.noConfusion h
      · rw [hs] at h
        obtain ⟨hW1, hH1, hL1⟩ := symStep_dims hs
        obtain ⟨hW2, hH2, hL2⟩ := ih h
        exact ⟨hW2.trans hW1, hH2.trans hH1, hL2.trans hL1⟩

/-- A successful `symLoop` consumes exactly one entropy byte per pair. -/
theorem symLoop_ent {w : Int} {pairs : List (Int × Int)} {a : Avatar}
    {ent : List Nat} {a2 : Avatar} {ent2 : List Nat}
    (h : symLoop w pairs a ent = .ok (a2, ent2)) :
    pairs.length ≤ ent.length ∧ ent2 = ent.drop pairs.length := by
  induction pairs generalizing a ent with
  | nil =>
    simp only [symLoop, Except.ok.injEq, Prod.mk.injEq] at h
    obtain ⟨rfl, rfl⟩ := h
    simp
  | cons p rest ih =>
    obtain ⟨py, px⟩ := p
    unfold symLoop at h
    rcases ent with _ | ⟨b, ent3⟩
    · exact Except.noConfusion h
    · dsimp only at h
      rcases hs : symStep w a py px b with _ | a3
      · rw [hs] at h
        exact Except.noConfusion h
      · rw [hs] at h
        obtain ⟨ih1, ih2⟩ := ih h
        refine ⟨?_, ?_⟩
        · simp only [List.length_cons]
          omega
        · simpa using ih2

/-- Horizontal mirror symmetry of an avatar with respect to width `w`. -/
def MirrorSym (w : Int) (a : Avatar) : Prop :=
  ∀ x y : Int, GetPixel a x y = GetPixel a (w - 1 - x) y

/-- Step lemma: `symStep` writes the same bit to a column and its mirror column, so it
preserves mirror symmetry. -/
theorem symStep_mirror {w : Int} {a a2 : Avatar} {y x : Int} {b : Nat}
    (hw : a.Width = w) (h : symStep w a y x b = some a2) (hm : MirrorSym w a) :
    MirrorSym w a2 := by
  unfold symStep at h
  split at h
  · exact Option.noConfusion h
  · next a1 h1 =>
    obtain ⟨hW1, hH1, _⟩ := SetPixel_dims h1
    split at h
    · next hmx =>
      -- double write: `h1` wrote `(x, y)`, `h` wrote `(w-1-x, y)`
      obtain ⟨hW2, hH2, _⟩ := SetPixel_dims h
      intro p q
      by_cases hq : q = y
      · subst hq
        by_cases hp1 : p = x
        · subst hp1
          by_cases hin : 0 ≤ p ∧ p < a.Width ∧ 0 ≤ q ∧ q < a.Height
          · obtain ⟨hi1, hi2, hi3, hi4⟩ := hin
            have g1 : GetPixel a2 p q = GetPixel a1 p q :=
              GetPixel_SetPixel_other h (Or.inl (by omega))
            have g2 : GetPixel a1 p q = some ((b &&& 1) == 1) :=
              GetPixel_SetPixel_same h1 hi1 hi2 hi3 hi4
            have g3 : GetPixel a2 (w - 1 - p) q = some ((b &&& 1) == 1) :=
              GetPixel_SetPixel_same h (by omega) (by omega) (by omega)
                (by omega)
            rw [g1, g2, g3]
          · have hc1 : p < 0 ∨ a.Width ≤ p ∨ q < 0 ∨ a.Height ≤ q := by omega
            rw [SetPixel_oob _ hc1] at h1
            obtain rfl := Option.some.inj h1
            have hc2 : w - 1 - p < 0 ∨ a.Width ≤ w - 1 - p ∨ q < 0 ∨
                a.Height ≤ q := by omega
            rw [SetPixel_oob _ hc2] at h
            obtain rfl := Option.some.inj h
            exact hm p q
        · by_cases hp2 : p = w - 1 - x
          · subst hp2
            have hxx : w - 1 - (w - 1 - x) = x := by omega
            rw [hxx]
            by_cases hin : 0 ≤ x ∧ x < a.Width ∧ 0 ≤ q ∧ q < a.Height
            · obtain ⟨hi1, hi2, hi3, hi4⟩ := hin
              have g1 : GetPixel a2 (w - 1 - x) q = some ((b &&& 1) == 1) :=
                GetPixel_SetPixel_same h (by omega) (by omega) (by omega)
                  (by omega)
              have g2 : GetPixel a2 x q = GetPixel a1 x q :=
                GetPixel_SetPixel_other h (Or.inl (by omega))
              have g3 : GetPixel a1 x q = some ((b &&& 1) == 1) :=
                GetPixel_SetPixel_same h1 hi1 hi2 hi3 hi4
              rw [g1, g2, g3]
            · have hc1 : x < 0 ∨ a.Width ≤ x ∨ q < 0 ∨ a.Height ≤ q := by omega
              rw [SetPixel_oob _ hc1] at h1
              obtain rfl := Option.some.inj h1
              have hc2 : w - 1 - x < 0 ∨ a.Width ≤ w - 1 - x ∨ q < 0 ∨
                  a.Height ≤ q := by omega
              rw [SetPixel_oob _ hc2] at h
              obtain rfl := Option.some.inj h
              exact (hm x q).symm
          · have hA : GetPixel a2 p q = GetPixel a p q := by
              rw [GetPixel_SetPixel_other h (Or.inl hp2),
                GetPixel_SetPixel_other h1 (Or.inl hp1)]
            have hB : GetPixel a2 (w - 1 - p) q = GetPixel a (w - 1 - p) q := by
              rw [GetPixel_SetPixel_other h (Or.inl (by omega)),
                GetPixel_SetPixel_other h1 (Or.inl (by omega))]
            rw [hA, hB]
            exact hm p q
      · have hA : GetPixel a2 p q = GetPixel a p q := by
          rw [GetPixel_SetPixel_other h (Or.inr hq),
            GetPixel_SetPixel_other h1 (Or.inr hq)]
        have hB : GetPixel a2 (w - 1 - p) q = GetPixel a (w - 1 - p) q := by
          rw [GetPixel_SetPixel_other h (Or.inr hq),
            GetPixel_SetPixel_other h1 (Or.inr hq)]
        rw [hA, hB]
        exact hm p q
    · next hmx =>
      -- single write at the center column: `w - 1 - x = x`
      obtain rfl := Option.some.inj h
      have hmx2 : w - 1 - x = x := by omega
      intro p q
      by_cases hpq : p = x ∧ q = y
      · obtain ⟨rfl, rfl⟩ := hpq
        have hpp : w - 1 - p = p := hmx2
        rw [hpp]
      · have hne1 : p ≠ x ∨ q ≠ y := by tauto
        have hne2 : w - 1 - p ≠ x ∨ q ≠ y := by
          rcases hne1 with h1x | h1y
          · by_cases hq : q = y
            · refine Or.inl ?_
              intro hcon
              exact h1x (by omega)
            · exact Or.inr hq
          · exact Or.inr h1y
        rw [GetPixel_SetPixel_other h1 hne1, GetPixel_SetPixel_other h1 hne2]
        exact hm p q

/-- Loop lemma: `symLoop` preserves mirror symmetry. -/
theorem symLoop_mirror {w : Int} {pairs : List (Int × Int)} {a : Avatar}
    {ent : List Nat} {a2 : Avatar} {ent2 : List Nat}
    (hw : a.Width = w) (hm : MirrorSym w a)
    (h : symLoop w pairs a ent = .ok (a2, ent2)) : MirrorSym w a2 := by
  induction pairs generalizing a ent with
  | nil =>
    simp only [symLoop, Except.ok.injEq, Prod.mk.injEq] at h
    obtain ⟨rfl, rfl⟩ := h
    exact hm
  | cons p rest ih =>
    obtain ⟨py, px⟩ := p
    unfold symLoop at h
    rcases ent with _ | ⟨b, ent3⟩
    · exact Except.noConfusion h
    · dsimp only at h
      rcases hs : symStep w a py px b with _ | a3
      · rw [hs] at h
        exact Except.noConfusion h
      · rw [hs] at h
        exact ih ((symStep_dims hs).1.trans hw) (symStep_mirror hw hs hm) h

/-- The mirrored fill iterates over `height * halfWidth` pixels. -/
theorem symPairs_length (height halfWidth : Int) :
    (symPairs height halfWidth).length = height.toNat * halfWidth.toNat := by
  unfold symPairs
  generalize height.toNat = H
  induction H with
  | zero => simp
  | succ n ih =>
    rw [List.range_succ, List.flatMap_append, List.length_append, ih,
      List.flatMap_cons, List.flatMap_nil, List.append_nil, List.length_map,
      List.length_range, Nat.succ_mul]

/-!
### The claims
-/

/-- Claim C1: every grid produced by a successful mirrored fill is a
horizontal palindrome in every row: `get(x, y) = get(width-1-x, y)` for all
in-range coordinates. -/
theorem C1_mirror (width height : Int) (ent : List Nat) (a : Avatar)
    (ent2 : List Nat) (h : GenerateSymmetric width height ent = .ok (a, ent2))
    (x y : Int) (hx0 : 0 ≤ x) (hxw : x < width) (hy0 : 0 ≤ y)
    (hyh : y < height) :
    GetPixel a x y = GetPixel a (width - 1 - x) y := by
  unfold GenerateSymmetric at h
  rw [if_neg (by omega)] at h
  have hm0 : MirrorSym width
      ⟨width, height, List.replicate (bytesNeeded width height) 0⟩ := by
    intro p q
    rw [GetPixel_zeroAvatar, GetPixel_zeroAvatar]
  exact symLoop_mirror rfl hm0 h x y

/-- Witness for C1 on the run `GenerateSymmetric 2 2` with entropy
`[3, 0]`. -/
theorem C1_mirror_witness :
    GetPixel ⟨2, 2, [3]⟩ 0 0 = GetPixel ⟨2, 2, [3]⟩ (2 - 1 - 0) 0 :=
  C1_mirror 2 2 [3, 0] ⟨2, 2, [3]⟩ [] rfl 0 0 (by decide) (by decide)
    (by decide) (by decide)

/-- Claim C2: out-of-range reads return `false` regardless of the avatar
state, and out-of-range writes return the avatar unchanged (in particular
the `Pixels` buffer is byte-for-byte unchanged). -/
theorem C2_oob (a : Avatar) (x y : Int) (v : Bool)
    (h : ¬(0 ≤ x ∧ x < a.Width ∧ 0 ≤ y ∧ y < a.Height)) :
    GetPixel a x y = some false ∧ SetPixel a x y v = some a :=
  ⟨GetPixel_oob (by omega), SetPixel_oob v (by omega)⟩

/-- Witness for C2 at `(-1, 0)` on a 2×2 avatar. -/
theorem C2_oob_witness :
    GetPixel ⟨2, 2, [9]⟩ (-1) 0 = some false ∧
      SetPixel ⟨2, 2, [9]⟩ (-1) 0 true = some ⟨2, 2, [9]⟩ :=
  C2_oob ⟨2, 2, [9]⟩ (-1) 0 true (by decide)

/-- Claim C3: with the invariant buffer length, an in-bounds `SetPixel`
succeeds and a subsequent `GetPixel` at the same coordinates returns the
written value. -/
theorem C3_roundtrip (a : Avatar) (x y : Int) (v : Bool)
    (hlen : a.Pixels.length = bytesNeeded a.Width a.Height)
    (hx0 : 0 ≤ x) (hxw : x < a.Width) (hy0 : 0 ≤ y) (hyh : y < a.Height) :
    ∃ a2, SetPixel a x y v = some a2 ∧ GetPixel a2 x y = some v := by
  have hlt : (y * a.Width + x).toNat / 8 < a.Pixels.length := by
    rw [hlen]
    exact byteIdx_lt hx0 hxw hy0 hyh
  exact ⟨_, SetPixel_inb (by omega) hlt,
    GetPixel_SetPixel_same (SetPixel_inb (by omega) hlt) hx0 hxw hy0 hyh⟩

/-- Witness for C3 at `(1, 1)` on a 2×2 avatar. -/
theorem C3_roundtrip_witness :
    ∃ a2, SetPixel ⟨2, 2, [0]⟩ 1 1 true = some a2 ∧
      GetPixel a2 1 1 = some true :=
  C3_roundtrip ⟨2, 2, [0]⟩ 1 1 true (by decide) (by decide) (by decide)
    (by decide) (by decide)

/-- Claim C4 (amended): an avatar returned by a successful `GenerateAvatar`
whose `width*height + 7` stays inside the signed 64-bit range (so the Go
`int` arithmetic does not wrap) has a buffer of exactly
`ceil(width*height/8)` bytes; a successful `GenerateSymmetric` avatar
always does; and `SetPixel` preserves the buffer length (`GetPixel` does
not modify the avatar at all in this embedding). -/
theorem C4_length (width height : Int) (ent : List Nat) :
    (∀ a ent2, width * height + 7 < 2 ^ 63 →
      GenerateAvatar width height ent = .ok (a, ent2) →
      a.Pixels.length = bytesNeeded width height) ∧
    (∀ a ent2, GenerateSymmetric width height ent = .ok (a, ent2) →
      a.Pixels.length = bytesNeeded width height) ∧
    (∀ (a a2 : Avatar) (x y : Int) (v : Bool), SetPixel a x y v = some a2 →
      a2.Pixels.length = a.Pixels.length) := by
  refine ⟨?_, ?_, ?_⟩
  · intro a ent2 h63 h
    unfold GenerateAvatar at h
    split at h
    · exact Except.noConfusion h
    · next hdim =>
      have hprod : 0 < width * height :=
        mul_pos (by omega) (by omega)
      have hgo : goBytesLen width height = (width * height + 7) / 8 := by
        unfold goBytesLen wrap64
        generalize hP : width * height = P at h63 hprod ⊢
        have e1 : (P + 2 ^ 63) % 2 ^ 64 - 2 ^ 63 = P := by omega
        rw [e1]
        have e2 : (P + 7 + 2 ^ 63) % 2 ^ 64 - 2 ^ 63 = P + 7 := by omega
        rw [e2]
        exact Int.tdiv_eq_ediv (by omega) (by omega)
      have hgo0 : ¬ goBytesLen width height < 0 := by
        rw [hgo]
        exact not_lt.mpr (Int.ediv_nonneg (by linarith) (by norm_num))
      rw [if_neg hgo0] at h
      split at h
      · exact Except.noConfusion h
      · next hge =>
        simp only [Except.ok.injEq, Prod.mk.injEq] at h
        obtain ⟨h3, h4⟩ := h
        subst h3
        simp only [List.length_take]
        have heq : (goBytesLen width height).toNat = bytesNeeded width height := by
          rw [hgo]
          rfl
        omega
  · intro a ent2 h
    unfold GenerateSymmetric at h
    split at h
    · exact Except.noConfusion h
    · rw [(symLoop_dims h).2.2]
      simp
  · intro a a2 x y v h
    exact (SetPixel_dims h).2.2

/-- Counterexample to claim C4 as stated: Go `int` multiplication wraps, so
at `width = height = 2^32` the real `GenerateAvatar` computes
`bits = 2^64 mod 2^64 = 0`, allocates zero bytes, reads nothing, and
succeeds with an empty buffer — while `ceil(width*height/8) = 2^61`. -/
theorem C4_length_counterexample :
    GenerateAvatar (2 ^ 32) (2 ^ 32) [] = .ok (⟨2 ^ 32, 2 ^ 32, []⟩, []) ∧
    (Avatar.mk (2 ^ 32) (2 ^ 32) []).Pixels.length ≠
      bytesNeeded (2 ^ 32) (2 ^ 32) :=
  ⟨rfl, by decide⟩

/-- Witness for the amended C4 on `GenerateAvatar 2 2` with entropy `[7]`. -/
theorem C4_length_witness :
    (Avatar.mk 2 2 [7]).Pixels.length = bytesNeeded 2 2 :=
  (C4_length 2 2 [7]).1 ⟨2, 2, [7]⟩ [] (by decide) rfl

/-- Claim C5: non-positive dimensions make every generation operation fail
with `invalidDimensions`; no avatar or keyed avatar is produced. -/
theorem C5_invalid_dims (width height : Int) (h : width ≤ 0 ∨ height ≤ 0)
    (key method : String) (ent : List Nat) :
    GenerateAvatar width height ent = .error .invalidDimensions ∧
    GenerateSymmetric width height ent = .error .invalidDimensions ∧
    GenerateKeyAvatar key width height method ent =
      .error .invalidDimensions := by
  have h1 : GenerateAvatar width height ent = .error .invalidDimensions := by
    unfold GenerateAvatar
    rw [if_pos h]
  have h2 : GenerateSymmetric width height ent = .error .invalidDimensions := by
    unfold GenerateSymmetric
    rw [if_pos h]
  refine ⟨h1, h2, ?_⟩
  unfold GenerateKeyAvatar
  by_cases hs : method = "symmetric"
  · rw [if_pos hs, h2]
  · rw [if_neg hs]
    by_cases hn : method = "none" ∨ method = ""
    · rw [if_pos hn, h1]
    · rw [if_neg hn, h1]

/-- Witness for C5 at `width = 0`. -/
theorem C5_invalid_dims_witness :
    GenerateAvatar 0 5 [] = .error .invalidDimensions ∧
    GenerateSymmetric 0 5 [] = .error .invalidDimensions ∧
    GenerateKeyAvatar "user123" 0 5 "none" [] = .error .invalidDimensions :=
  C5_invalid_dims 0 5 (Or.inl (by decide)) "user123" "none" []

/-- Claim C6: a successful mirrored fill performs exactly
`height * halfWidth` entropy reads, one per left-half pixel, where
`halfWidth = (width+1)/2 = ceil(width/2)`; the leftover entropy is the
input minus exactly that many leading bytes. -/
theorem C6_entropy (width height : Int) (ent : List Nat) (a : Avatar)
    (ent2 : List Nat)
    (h : GenerateSymmetric width height ent = .ok (a, ent2)) :
    height.toNat * ((width + 1) / 2).toNat ≤ ent.length ∧
    ent2 = ent.drop (height.toNat * ((width + 1) / 2).toNat) ∧
    ent.length = ent2.length + height.toNat * ((width + 1) / 2).toNat := by
  unfold GenerateSymmetric at h
  split at h
  · exact Except.noConfusion h
  · obtain ⟨h1, h2⟩ := symLoop_ent h
    rw [symPairs_length] at h1 h2
    subst h2
    refine ⟨h1, rfl, ?_⟩
    rw [List.length_drop]
    omega

/-- Witness for C6 on `GenerateSymmetric 2 2` with entropy `[3, 0]`. -/
theorem C6_entropy_witness :
    (2 : Int).toNat * (((2 : Int) + 1) / 2).toNat ≤
      ([3, 0] : List Nat).length ∧
    ([] : List Nat) = ([3, 0] : List Nat).drop
      ((2 : Int).toNat * (((2 : Int) + 1) / 2).toNat) ∧
    ([3, 0] : List Nat).length = ([] : List Nat).length +
      (2 : Int).toNat * (((2 : Int) + 1) / 2).toNat :=
  C6_entropy 2 2 [3, 0] ⟨2, 2, [3]⟩ [] rfl

/-- Claim C7: `GenerateKeyAvatar` uses the mirrored fill exactly when
`method = "symmetric"` and the plain random fill for every other value
(including `"none"` and `""`); any fill failure is propagated unchanged,
and on success the avatar is wrapped with the key verbatim. -/
theorem C7_dispatch (key : String) (width height : Int) (method : String)
    (ent : List Nat) :
    GenerateKeyAvatar key width height method ent =
      Except.map (fun r => (⟨key, r.1⟩, r.2))
        (if method = "symmetric" then GenerateSymmetric width height ent
         else GenerateAvatar width height ent) := by
  unfold GenerateKeyAvatar
  by_cases hs : method = "symmetric"
  · rw [if_pos hs, if_pos hs]
    cases GenerateSymmetric width height ent with
    | error e => rfl
    | ok r =>
      obtain ⟨a, ent2⟩ := r
      rfl
  · rw [if_neg hs, if_neg hs]
    by_cases hn : method = "none" ∨ method = ""
    · rw [if_pos hn]
      cases GenerateAvatar width height ent with
      | error e => rfl
      | ok r =>
        obtain ⟨a, ent2⟩ := r
        rfl
    · rw [if_neg hn]
      cases GenerateAvatar width height ent with
      | error e => rfl
      | ok r =>
        obtain ⟨a, ent2⟩ := r
        rfl

/-- Claim C9: with the invariant buffer length, an in-bounds `SetPixel`
succeeds, preserves the buffer length, and changes at most the single bit
at row-major index `y*width+x`: every other bit of the buffer reads the
same before and after. -/
theorem C9_frame (a : Avatar) (x y : Int) (v : Bool)
    (hlen : a.Pixels.length = bytesNeeded a.Width a.Height)
    (hx0 : 0 ≤ x) (hxw : x < a.Width) (hy0 : 0 ≤ y) (hyh : y < a.Height) :
    ∃ a2, SetPixel a x y v = some a2 ∧
      a2.Pixels.length = a.Pixels.length ∧
      ∀ i : Nat, i ≠ (y * a.Width + x).toNat →
        bufBit a2.Pixels i = bufBit a.Pixels i := by
  have hc : ¬(x < 0 ∨ a.Width ≤ x ∨ y < 0 ∨ a.Height ≤ y) := by omega
  have hlt : (y * a.Width + x).toNat / 8 < a.Pixels.length := by
    rw [hlen]
    exact byteIdx_lt hx0 hxw hy0 hyh
  refine ⟨_, SetPixel_inb hc hlt, by simp, ?_⟩
  intro i hi
  unfold bufBit
  by_cases hJ : i / 8 = (y * a.Width + x).toNat / 8
  · rw [hJ]
    simp only [List.getD_eq_getElem?_getD, List.getElem?_set_self hlt,
      List.getElem?_eq_getElem hlt, Option.getD_some]
    have hkk : i % 8 ≠ (y * a.Width + x).toNat % 8 := by
      generalize hA : (y * a.Width + x).toNat = A at *
      omega
    exact testBit_setByte_other _ _ _ v (Nat.mod_lt _ (by norm_num)) hkk
  · simp only [List.getD_eq_getElem?_getD,
      List.getElem?_set_ne (fun hEq => hJ hEq.symm)]

/-- Witness for C9 at `(0, 0)` on a 2×2 avatar. -/
theorem C9_frame_witness :
    ∃ a2, SetPixel ⟨2, 2, [0]⟩ 0 0 true = some a2 ∧
      a2.Pixels.length = 1 ∧
      ∀ i : Nat, i ≠ 0 → bufBit a2.Pixels i = bufBit [0] i :=
  C9_frame ⟨2, 2, [0]⟩ 0 0 true (by decide) (by decide) (by decide)
    (by decide) (by decide)

/-- Claim C10: with the invariant buffer length and nonnegative dimensions,
`GetPixel` and `SetPixel` never hit the out-of-range buffer access (the
`none` branch of the embedding) for any integer coordinates. -/
theorem C10_safe (a : Avatar) (_hw : 0 ≤ a.Width) (_hh : 0 ≤ a.Height)
    (hlen : a.Pixels.length = bytesNeeded a.Width a.Height) :
    (∀ x y : Int, (GetPixel a x y).isSome) ∧
    (∀ (x y : Int) (v : Bool), (SetPixel a x y v).isSome) := by
  constructor
  · intro x y
    unfold GetPixel
    split
    · rfl
    · next hc =>
      have hlt : (y * a.Width + x).toNat / 8 < a.Pixels.length := by
        rw [hlen]
        exact byteIdx_lt (by omega) (by omega) (by omega) (by omega)
      rw [List.getElem?_eq_getElem hlt]
      rfl
  · intro x y v
    unfold SetPixel
    split
    · rfl
    · next hc =>
      have hlt : (y * a.Width + x).toNat / 8 < a.Pixels.length := by
        rw [hlen]
        exact byteIdx_lt (by omega) (by omega) (by omega) (by omega)
      rw [List.getElem?_eq_getElem hlt]
      rfl

/-- Witness for C10 on a 2×2 avatar at an out-of-range coordinate. -/
theorem C10_safe_witness :
    (GetPixel ⟨2, 2, [0]⟩ 5 (-7)).isSome = true :=
  (C10_safe ⟨2, 2, [0]⟩ (by decide) (by decide) (by decide)).1 5 (-7)

/-!
### Lemmas about the path helper
-/

/-- A separator-free string splits into a single component. -/
theorem splitSlash_no_slash {cs : List Char} (h : '/' ∉ cs) :
    splitSlash cs = [cs] := by
  induction cs with
  | nil => rfl
  | cons c rest ih =>
    have hc : c ≠ '/' := fun hEq => h (hEq ▸ List.mem_cons_self c rest)
    have hrest : '/' ∉ rest := fun hm => h (List.mem_cons_of_mem c hm)
    rw [splitSlash, ih hrest]
    simp [hc]

/-- Splitting `a ++ "/" ++ b` with separator-free `a` and `b` gives the two
components. -/
theorem splitSlash_sep {a b : List Char} (ha : '/' ∉ a) (hb : '/' ∉ b) :
    splitSlash (a ++ '/' :: b) = [a, b] := by
  induction a with
  | nil =>
    simp only [List.nil_append]
    rw [splitSlash, splitSlash_no_slash hb]
    simp
  | cons c rest ih =>
    have hc : c ≠ '/' := fun hEq => ha (hEq ▸ List.mem_cons_self c rest)
    have hrest : '/' ∉ rest := fun hm => ha (List.mem_cons_of_mem c hm)
    rw [List.cons_append, splitSlash, ih hrest]
    simp [hc]

/-- Processing two ordinary components with `cleanLoop` keeps them unchanged. -/
theorem cleanLoop_two {f k : List Char} (hf1 : f ≠ []) (hf2 : f ≠ ['.'])
    (hf3 : f ≠ ['.', '.']) (hk1 : k ≠ []) (hk2 : k ≠ ['.'])
    (hk3 : k ≠ ['.', '.']) :
    cleanLoop false [f, k] [] = [f, k] := by
  simp [cleanLoop, hf1, hf2, hf3, hk1, hk2, hk3]

/-- Joining two components inserts a single separator. -/
theorem joinSlash_two (f k : List Char) :
    joinSlash [f, k] = f ++ '/' :: k := by
  simp [joinSlash, List.intercalate]

/-- Claim C8 (amended): `GetAvatarPath` is `filepath.Join(folder,
key+".png")`, which lexically cleans the joined path; whenever `folder` is a
single ordinary component (nonempty, separator-free, and not `"."` or
`".."`) and `key` is separator-free, the result is exactly
`<folder>/<key>.png`. -/
theorem C8_path_amended (folder key : List Char) (h1 : folder ≠ [])
    (h2 : '/' ∉ folder) (h3 : folder ≠ ['.']) (h4 : folder ≠ ['.', '.'])
    (h5 : '/' ∉ key) :
    GetAvatarPath folder key =
      folder ++ '/' :: (key ++ ['.', 'p', 'n', 'g']) := by
  have hkslash : '/' ∉ key ++ ['.', 'p', 'n', 'g'] := by
    intro hm
    rcases List.mem_append.mp hm with hm1 | hm2
    · exact h5 hm1
    · simp at hm2
  have hk1 : key ++ ['.', 'p', 'n', 'g'] ≠ [] := by simp
  have hk2 : key ++ ['.', 'p', 'n', 'g'] ≠ ['.'] := by
    intro hEq
    have := congrArg List.length hEq
    simp at this
  have hk3 : key ++ ['.', 'p', 'n', 'g'] ≠ ['.', '.'] := by
    intro hEq
    have := congrArg List.length hEq
    simp at this
  rcases hfolder : folder with _ | ⟨c, rest⟩
  · exact absurd hfolder h1
  · subst hfolder
    have hc : c ≠ '/' := fun hEq => h2 (hEq ▸ List.mem_cons_self c rest)
    unfold GetAvatarPath goJoin
    rw [if_pos h1]
    unfold goClean
    rw [if_neg (by simp), if_neg (by simp [hc]),
      splitSlash_sep h2 hkslash, cleanLoop_two h1 h3 h4 hk1 hk2 hk3,
      joinSlash_two, if_neg (by simp)]

/-- Counterexample to claim C8 as stated: with `folder = ""`,
`filepath.Join` drops the folder and the separator entirely, so the result
is `"a.png"`, not `"/a.png"` (the folder, a separator, then the key). -/
theorem C8_path_counterexample :
    GetAvatarPath [] ['a'] = ['a', '.', 'p', 'n', 'g'] ∧
    GetAvatarPath [] ['a'] ≠ ['/', 'a', '.', 'p', 'n', 'g'] := by decide

/-- Witness for the amended C8 at `folder = "ab"`, `key = "c"`. -/
theorem C8_path_amended_witness :
    GetAvatarPath ['a', 'b'] ['c'] =
      ['a', 'b'] ++ '/' :: (['c'] ++ ['.', 'p', 'n', 'g']) :=
  C8_path_amended ['a', 'b'] ['c'] (by decide) (by decide) (by decide)
    (by decide) (by decide)
